import Mathlib

/-!
Verification of the polymer-constructor repository (`src/plot.py`).

The script has two pure computational functions:

* `create_polymer_chain n_units bond_angle torsion_angle bond_length monomer_type`
  builds a list of atom records `[monomer_type, "%.6f" % x, "%.6f" % y, "%.6f" % z]`
  together with a bond list `[(i-1, i)]`, advancing a running position with
  trigonometric steps and accumulating the angle/torsion in degrees.
* `write_xyz_string num_atoms coordinates` renders the XYZ text document.

The shallow embedding below models Python floats by real numbers (the ideal
values computed by the same recurrence) and Python's `f"{v:.6f}"` fixed-point
formatting by rounding the real value to an integer number of millionths and
rendering that integer with six forced decimal digits.  Python ints are `ℤ`,
Python lists are Lean lists, and the four-element atom record is a structure
with four string fields.
-/

namespace Polymer

/-- An atom record, as built at line 41 of `plot.py`:
`[monomer_type, f"{x:.6f}", f"{y:.6f}", f"{z:.6f}"]`. -/
structure Atom where
  symbol : String
  sx : String
  sy : String
  sz : String
deriving DecidableEq

/-- The character for the decimal digit `d % 10`. -/
def digChar (d : ℕ) : Char := Char.ofNat (48 + d % 10)

/-- The six forced decimal digits of a number `r < 10^6` of millionths,
most significant first, zero padded on the left. -/
def frac6 (r : ℕ) : List Char :=
  (List.range 6).map (fun i => digChar (r / 10 ^ (5 - i) % 10))

/-- Fixed-point rendering of `n` millionths in the shape produced by Python's
`f"{v:.6f}"`: optional sign, integer part in decimal, a dot, six digits. -/
def fmtMicro (n : ℤ) : String :=
  (if n < 0 then "-" else "") ++ toString (n.natAbs / 1000000) ++ "." ++
    String.mk (frac6 (n.natAbs % 1000000))

/-- The embedding of Python's `f"{v:.6f}"` on the ideal real value: round to
the nearest number of millionths, then render. -/
noncomputable def fmt6 (v : ℝ) : String := fmtMicro (round (v * 1000000))

/-- The running state of the generation loop of `create_polymer_chain`:
position `x, y, z` and the accumulated `angle` and `torsion` in degrees. -/
structure GenState where
  x : ℝ
  y : ℝ
  z : ℝ
  angle : ℝ
  torsion : ℝ

/-- The initial loop state: origin position, zero angles. -/
def initState : GenState := ⟨0, 0, 0, 0, 0⟩

/-- Degrees to radians, the embedding of `np.radians`. -/
noncomputable def radians (d : ℝ) : ℝ := d * (Real.pi / 180)

/-- One iteration of the position/angle update of `create_polymer_chain`
(lines 47-57 of `plot.py`). -/
noncomputable def advance (bond_angle torsion_angle bond_length : ℝ)
    (s : GenState) : GenState :=
  let angle_rad := radians s.angle
  let torsion_rad := radians s.torsion
  { x := s.x + bond_length * Real.cos angle_rad * Real.cos torsion_rad
    y := s.y + bond_length * Real.sin angle_rad * Real.cos torsion_rad
    z := s.z + bond_length * Real.sin torsion_rad
    angle := s.angle + bond_angle
    torsion := s.torsion + torsion_angle }

/-- The atom record emitted for loop state `s` (line 41 of `plot.py`). -/
noncomputable def atomAt (monomer_type : String) (s : GenState) : Atom :=
  ⟨monomer_type, fmt6 s.x, fmt6 s.y, fmt6 s.z⟩

/-- The loop `for i in range(n_units)` of `create_polymer_chain`, with `fuel`
iterations left, current index `i` and current state `s`.  Each iteration
appends the atom record for the current state, appends the bond `(i-1, i)`
when `i > 0`, and advances the state. -/
noncomputable def genLoop (bond_angle torsion_angle bond_length : ℝ)
    (monomer_type : String) :
    ℕ → ℕ → GenState → List Atom × List (ℕ × ℕ)
  | 0, _, _ => ([], [])
  | fuel + 1, i, s =>
    let rest := genLoop bond_angle torsion_angle bond_length monomer_type fuel
      (i + 1) (advance bond_angle torsion_angle bond_length s)
    (atomAt monomer_type s :: rest.1,
      (if 0 < i then [(i - 1, i)] else []) ++ rest.2)

/-- The embedding of `create_polymer_chain` (lines 17-59 of `plot.py`):
returns `(num_atoms, coordinates, bonds)`.  `n_units` is a Python int;
`range(n_units)` is empty for non-positive `n_units`, hence the `toNat`. -/
noncomputable def create_polymer_chain (n_units : ℤ)
    (bond_angle torsion_angle bond_length : ℝ) (monomer_type : String) :
    ℤ × List Atom × List (ℕ × ℕ) :=
  let r := genLoop bond_angle torsion_angle bond_length monomer_type
    n_units.toNat 0 initState
  (n_units, r.1, r.2)

/-- The line written for one atom record, the embedding of the f-string
`f"{atom[0]} {atom[1]} {atom[2]} {atom[3]}"` at line 14 of `plot.py`. -/
def atomLine (a : Atom) : String :=
  a.symbol ++ " " ++ a.sx ++ " " ++ a.sy ++ " " ++ a.sz

/-- The embedding of `write_xyz_string` (lines 6-15 of `plot.py`): the count
line, the fixed comment line, then one space-separated line per atom record,
each line terminated by a newline. -/
def write_xyz_string (num_atoms : ℤ) (coordinates : List Atom) : String :=
  toString num_atoms ++ "\n" ++ "Generated polymer chain\n" ++
    (coordinates.map (fun a => atomLine a ++ "\n")).foldr (fun s t => s ++ t) ""

/-- Splitting a character list at newline characters.  A document that ends in
a newline yields a final empty remnant and no further blank line. -/
def splitNL : List Char → List (List Char)
  | [] => [[]]
  | c :: cs =>
    if c = '\n' then [] :: splitNL cs
    else
      match splitNL cs with
      | [] => [[c]]
      | l :: ls => (c :: l) :: ls

/-- Accumulator version of whitespace splitting: `acc` holds the reversed
current word. -/
def splitWSAux : List Char → List Char → List (List Char)
  | [], acc => if acc = [] then [] else [acc.reverse]
  | c :: cs, acc =>
    if c.isWhitespace then
      (if acc = [] then splitWSAux cs [] else acc.reverse :: splitWSAux cs [])
    else splitWSAux cs (c :: acc)

/-- Splitting a character list into maximal whitespace-free words, the
embedding of Python's `str.split()`. -/
def splitWS (l : List Char) : List (List Char) := splitWSAux l []

/-- Modelled from the spec: the XYZ reader of the Monomer Repeater script is
not under `src/`.  Per the read contract of section 4.2, line 0 carries the
atom count (not validated and not used for the returned atom list), line 1 is
the skipped comment, and every later line is split on whitespace, keeping
exactly the lines that produce exactly 4 fields. -/
def read_xyz (text : String) : List (String × String × String × String) :=
  ((splitNL text.data).drop 2).filterMap (fun l =>
    match (splitWS l).map String.mk with
    | [a, b, c, d] => some (a, b, c, d)
    | _ => none)

/-- Well-formedness of one field of an atom record: nonempty and free of
whitespace, so that it survives the XYZ line discipline intact. -/
def goodField (s : String) : Prop :=
  s.data ≠ [] ∧ ∀ c ∈ s.data, ¬ c.isWhitespace

instance (s : String) : Decidable (goodField s) := by
  unfold goodField; infer_instance

/-- Well-formedness of an atom record: all four fields are `goodField`. -/
def goodAtom (a : Atom) : Prop :=
  goodField a.symbol ∧ goodField a.sx ∧ goodField a.sy ∧ goodField a.sz

instance (a : Atom) : Decidable (goodAtom a) := by
  unfold goodAtom; infer_instance

/-- A string whose final decimal portion has exactly six digits: it splits as
some prefix, a dot, and exactly six digit characters. -/
def sixDecimals (s : String) : Prop :=
  ∃ t u, s.data = t ++ '.' :: u ∧ u.length = 6 ∧ ∀ c ∈ u, c.isDigit

/-! ### Character classes of the rendered numerals -/

/-- The ten decimal digit characters. -/
def decChars : List Char := "0123456789".data

/-- The characters that can occur in the decimal rendering of an integer. -/
def intChars : List Char := "-0123456789".data

lemma ofNat_digit_mem {k : ℕ} (h : k < 10) : Char.ofNat (48 + k) ∈ decChars := by
  interval_cases k <;> decide

lemma digChar_mem (d : ℕ) : digChar d ∈ decChars :=
  ofNat_digit_mem (Nat.mod_lt _ (by norm_num))

lemma digitChar_mem {k : ℕ} (h : k < 10) : Nat.digitChar k ∈ decChars := by
  interval_cases k <;> decide

lemma toDigitsCore_mem (fuel : ℕ) :
    ∀ (n : ℕ) (ds : List Char), (∀ c ∈ ds, c ∈ decChars) →
      ∀ c ∈ Nat.toDigitsCore 10 fuel n ds, c ∈ decChars := by
  induction fuel with
  | zero => intro n ds hds c hc; exact hds c hc
  | succ fuel ih =>
    intro n ds hds c hc
    have hd : ∀ c ∈ Nat.digitChar (n % 10) :: ds, c ∈ decChars := by
      intro c hc
      rcases List.mem_cons.mp hc with h | h
      · exact h ▸ digitChar_mem (Nat.mod_lt _ (by norm_num))
      · exact hds c h
    by_cases h0 : n / 10 = 0
    · simp only [Nat.toDigitsCore, h0, if_true] at hc
      exact hd c hc
    · simp only [Nat.toDigitsCore, h0, if_false] at hc
      exact ih (n / 10) _ hd c hc

lemma natRepr_mem (n : ℕ) : ∀ c ∈ (Nat.repr n).data, c ∈ decChars := by
  intro c hc
  exact toDigitsCore_mem (n + 1) n [] (by intro c hc; cases hc) c hc

lemma intRepr_mem (n : ℤ) : ∀ c ∈ (Int.repr n).data, c ∈ intChars := by
  have hsub : ∀ c ∈ decChars, c ∈ intChars := by decide
  intro c hc
  cases n with
  | ofNat m => exact hsub c (natRepr_mem m c hc)
  | negSucc m =>
    have hd : (Int.repr (Int.negSucc m)).data = '-' :: (Nat.repr (m + 1)).data := by
      show (("-" : String) ++ Nat.repr (m + 1)).data = _
      rw [String.data_append]
      rfl
    rw [hd] at hc
    rcases List.mem_cons.mp hc with h | h
    · exact h ▸ (by decide)
    · exact hsub c (natRepr_mem (m + 1) c h)

lemma toString_int_mem (n : ℤ) : ∀ c ∈ (toString n).data, c ∈ intChars :=
  intRepr_mem n

lemma toString_int_no_nl (n : ℤ) : '\n' ∉ (toString n).data := by
  intro h
  have := toString_int_mem n '\n' h
  revert this
  decide

/-! ### Newline splitting -/

lemma splitNL_ne_nil (l : List Char) : splitNL l ≠ [] := by
  cases l with
  | nil => simp [splitNL]
  | cons c cs =>
    by_cases h : c = '\n'
    · simp [splitNL, h]
    · simp only [splitNL, h, if_false]
      cases splitNL cs <;> simp

lemma splitNL_append (w r : List Char) (hw : '\n' ∉ w) :
    splitNL (w ++ '\n' :: r) = w :: splitNL r := by
  induction w with
  | nil => simp [splitNL]
  | cons c w ih =>
    have hc : ¬ c = '\n' := by
      intro h
      exact hw (h ▸ List.mem_cons_self c w)
    have hrec : splitNL (w.append ('\n' :: r)) = w :: splitNL r :=
      ih (fun h => hw (List.mem_cons_of_mem _ h))
    simp only [List.cons_append, splitNL, hc, if_false, hrec]

/-! ### Whitespace splitting -/

lemma splitWSAux_word (w : List Char) (hw : ∀ c ∈ w, ¬ c.isWhitespace) :
    ∀ (r acc : List Char), splitWSAux (w ++ r) acc = splitWSAux r (w.reverse ++ acc) := by
  induction w with
  | nil => intro r acc; simp
  | cons c w ih =>
    intro r acc
    have hc : c.isWhitespace = false := by
      have := hw c (List.mem_cons_self _ _)
      simpa using this
    have hw' : ∀ d ∈ w, ¬ d.isWhitespace := fun d hd => hw d (List.mem_cons_of_mem _ hd)
    have hih : splitWSAux (w.append r) (c :: acc) = splitWSAux r (w.reverse ++ (c :: acc)) :=
      ih hw' r (c :: acc)
    simp only [List.cons_append, splitWSAux, hc, Bool.false_eq_true, if_false, hih]
    rw [List.reverse_cons, List.append_assoc, List.singleton_append]

lemma splitWS_cons_ws (c : Char) (r : List Char) (hc : c.isWhitespace) :
    splitWS (c :: r) = splitWS r := by
  simp [splitWS, splitWSAux, hc]

lemma splitWS_word_append (w r : List Char) (hne : w ≠ [])
    (hw : ∀ c ∈ w, ¬ c.isWhitespace)
    (hr : r = [] ∨ ∃ c cs, r = c :: cs ∧ c.isWhitespace) :
    splitWS (w ++ r) = w :: splitWS r := by
  unfold splitWS
  rw [splitWSAux_word w hw r []]
  rcases hr with rfl | ⟨c, cs, rfl, hc⟩
  · simp [splitWSAux, hne]
  · simp [splitWSAux, hc, hne]

lemma splitWS_single (w : List Char) (hne : w ≠ [])
    (hw : ∀ c ∈ w, ¬ c.isWhitespace) : splitWS w = [w] := by
  have := splitWS_word_append w [] hne hw (Or.inl rfl)
  simpa [splitWS, splitWSAux] using this

lemma splitWS_four (a b c d : List Char)
    (ha : a ≠ []) (ha' : ∀ x ∈ a, ¬ x.isWhitespace)
    (hb : b ≠ []) (hb' : ∀ x ∈ b, ¬ x.isWhitespace)
    (hc : c ≠ []) (hc' : ∀ x ∈ c, ¬ x.isWhitespace)
    (hd : d ≠ []) (hd' : ∀ x ∈ d, ¬ x.isWhitespace) :
    splitWS (a ++ ' ' :: (b ++ ' ' :: (c ++ ' ' :: d))) = [a, b, c, d] := by
  rw [splitWS_word_append a _ ha ha' (Or.inr ⟨' ', _, rfl, by decide⟩)]
  rw [splitWS_cons_ws ' ' _ (by decide)]
  rw [splitWS_word_append b _ hb hb' (Or.inr ⟨' ', _, rfl, by decide⟩)]
  rw [splitWS_cons_ws ' ' _ (by decide)]
  rw [splitWS_word_append c _ hc hc' (Or.inr ⟨' ', _, rfl, by decide⟩)]
  rw [splitWS_cons_ws ' ' _ (by decide)]
  rw [splitWS_single d hd hd']

/-! ### Decomposition of the written document -/

lemma space_data : (" " : String).data = [' '] := rfl

lemma nl_data : ("\n" : String).data = ['\n'] := rfl

lemma dot_data : ("." : String).data = ['.'] := rfl

lemma mk_data (s : String) : String.mk s.data = s := by cases s; rfl

lemma comment_data :
    ("Generated polymer chain\n" : String).data =
      "Generated polymer chain".data ++ ['\n'] := by decide

lemma atomLine_data (a : Atom) :
    (atomLine a).data =
      a.symbol.data ++ ' ' :: (a.sx.data ++ ' ' :: (a.sy.data ++ ' ' :: a.sz.data)) := by
  simp [atomLine, String.data_append, space_data]

lemma write_body_data (atoms : List Atom) :
    ((atoms.map (fun a => atomLine a ++ "\n")).foldr (fun s t => s ++ t) "").data =
      atoms.foldr (fun a t => (atomLine a).data ++ '\n' :: t) [] := by
  induction atoms with
  | nil => rfl
  | cons a atoms ih =>
    simp [String.data_append, nl_data, ih]

lemma write_data (n : ℤ) (atoms : List Atom) :
    (write_xyz_string n atoms).data =
      (toString n).data ++ '\n' :: ("Generated polymer chain".data ++ '\n' ::
        atoms.foldr (fun a t => (atomLine a).data ++ '\n' :: t) []) := by
  unfold write_xyz_string
  simp [String.data_append, write_body_data, comment_data, nl_data]

lemma splitNL_body :
    ∀ (atoms : List Atom), (∀ a ∈ atoms, '\n' ∉ (atomLine a).data) →
      splitNL (atoms.foldr (fun a t => (atomLine a).data ++ '\n' :: t) []) =
        atoms.map (fun a => (atomLine a).data) ++ [[]] := by
  intro atoms
  induction atoms with
  | nil => intro _; rfl
  | cons a atoms ih =>
    intro h
    simp only [List.foldr_cons, List.map_cons, List.cons_append]
    rw [splitNL_append _ _ (h a (List.mem_cons_self _ _))]
    rw [ih (fun b hb => h b (List.mem_cons_of_mem _ hb))]

/-- The central decomposition of the writer: provided no field smuggles in a
newline, the document splits into the count line, the comment line, the atom
lines, and the empty remnant after the final terminating newline. -/
lemma splitNL_write (n : ℤ) (atoms : List Atom)
    (h : ∀ a ∈ atoms, '\n' ∉ (atomLine a).data) :
    splitNL (write_xyz_string n atoms).data =
      (toString n).data :: "Generated polymer chain".data ::
        (atoms.map (fun a => (atomLine a).data) ++ [[]]) := by
  rw [write_data]
  rw [splitNL_append _ _ (toString_int_no_nl n)]
  rw [splitNL_append _ _ (by decide)]
  rw [splitNL_body atoms h]

lemma goodField_no_nl {s : String} (h : goodField s) : '\n' ∉ s.data :=
  fun hm => h.2 '\n' hm (by decide)

lemma atomLine_no_nl {a : Atom}
    (h : '\n' ∉ a.symbol.data ∧ '\n' ∉ a.sx.data ∧ '\n' ∉ a.sy.data ∧ '\n' ∉ a.sz.data) :
    '\n' ∉ (atomLine a).data := by
  intro hm
  rw [atomLine_data] at hm
  simp only [List.mem_append, List.mem_cons] at hm
  rcases hm with h1 | h1 | h1 | h1 | h1 | h1 | h1
  · exact h.1 h1
  · exact absurd h1 (by decide)
  · exact h.2.1 h1
  · exact absurd h1 (by decide)
  · exact h.2.2.1 h1
  · exact absurd h1 (by decide)
  · exact h.2.2.2 h1

lemma goodAtom_no_nl {a : Atom} (h : goodAtom a) : '\n' ∉ (atomLine a).data :=
  atomLine_no_nl ⟨goodField_no_nl h.1, goodField_no_nl h.2.1,
    goodField_no_nl h.2.2.1, goodField_no_nl h.2.2.2⟩

lemma splitWS_atomLine {a : Atom} (h : goodAtom a) :
    splitWS (atomLine a).data = [a.symbol.data, a.sx.data, a.sy.data, a.sz.data] := by
  rw [atomLine_data]
  exact splitWS_four _ _ _ _ h.1.1 h.1.2 h.2.1.1 h.2.1.2
    h.2.2.1.1 h.2.2.1.2 h.2.2.2.1 h.2.2.2.2

/-! ### Character facts about the fixed-point rendering -/

lemma mem_frac6 (r : ℕ) : ∀ c ∈ frac6 r, c ∈ decChars := by
  intro c hc
  simp only [frac6, List.mem_map, List.mem_range] at hc
  obtain ⟨i, _, rfl⟩ := hc
  exact digChar_mem _

lemma fmtMicro_data (n : ℤ) :
    (fmtMicro n).data =
      (if n < 0 then ['-'] else []) ++ (toString (n.natAbs / 1000000)).data ++
        '.' :: frac6 (n.natAbs % 1000000) := by
  unfold fmtMicro
  by_cases h : n < 0 <;>
    simp [h, String.data_append, dot_data]

lemma mem_fmtMicro (n : ℤ) : ∀ c ∈ (fmtMicro n).data, c ∈ ('.' :: intChars) := by
  have hsub : ∀ c ∈ decChars, c ∈ ('.' :: intChars) := by decide
  rw [fmtMicro_data]
  intro c hc
  rcases List.mem_append.mp hc with h1 | h1
  · rcases List.mem_append.mp h1 with h2 | h2
    · by_cases hn : n < 0
      · rw [if_pos hn] at h2
        rcases List.mem_singleton.mp h2 with rfl
        decide
      · rw [if_neg hn] at h2
        cases h2
    · exact hsub c (natRepr_mem _ c h2)
  · rcases List.mem_cons.mp h1 with rfl | h2
    · exact List.mem_cons_self _ _
    · exact hsub c (mem_frac6 _ c h2)

lemma fmtMicro_good (n : ℤ) : goodField (fmtMicro n) := by
  constructor
  · rw [fmtMicro_data]
    intro h
    rcases List.append_eq_nil.mp h with ⟨-, h2⟩
    cases h2
  · intro c hc
    have hmem := mem_fmtMicro n c hc
    have hdec : ∀ x ∈ ('.' :: intChars), ¬ x.isWhitespace := by decide
    exact hdec c hmem

lemma fmtMicro_sixDecimals (n : ℤ) : sixDecimals (fmtMicro n) := by
  refine ⟨(if n < 0 then ['-'] else []) ++ (toString (n.natAbs / 1000000)).data,
    frac6 (n.natAbs % 1000000), ?_, ?_, ?_⟩
  · rw [fmtMicro_data, List.append_assoc]
  · simp [frac6]
  · intro c hc
    have hmem := mem_frac6 _ c hc
    have hdec : ∀ x ∈ decChars, x.isDigit := by decide
    exact hdec c hmem

/-! ### Shape of the generation loop -/

lemma genLoop_atoms (ba ta L : ℝ) (sym : String) :
    ∀ (fuel i : ℕ) (s : GenState),
      (genLoop ba ta L sym fuel i s).1 =
        (List.range fuel).map (fun k => atomAt sym ((advance ba ta L)^[k] s)) := by
  intro fuel
  induction fuel with
  | zero => intro i s; rfl
  | succ fuel ih =>
    intro i s
    simp only [genLoop]
    rw [ih (i + 1) (advance ba ta L s)]
    rw [List.range_succ_eq_map]
    simp only [List.map_cons, Function.iterate_zero_apply, List.map_map]
    have hfun : (fun k : ℕ => atomAt sym ((advance ba ta L)^[k] (advance ba ta L s)))
        = (fun k : ℕ => atomAt sym ((advance ba ta L)^[k + 1] s)) := by
      funext k
      rw [Function.iterate_succ_apply]
    rw [hfun]
    simp [Function.comp_def]

lemma genLoop_bonds_pos (ba ta L : ℝ) (sym : String) :
    ∀ (fuel i : ℕ), 1 ≤ i → ∀ (s : GenState),
      (genLoop ba ta L sym fuel i s).2 =
        (List.range fuel).map (fun k => (i + k - 1, i + k)) := by
  intro fuel
  induction fuel with
  | zero => intro i _ s; rfl
  | succ fuel ih =>
    intro i hi s
    simp only [genLoop]
    rw [if_pos (by omega : 0 < i)]
    rw [ih (i + 1) (by omega) (advance ba ta L s)]
    rw [List.range_succ_eq_map]
    simp only [List.map_cons, List.map_map, List.singleton_append]
    have hfun : (fun k : ℕ => (i + 1 + k - 1, i + 1 + k))
        = (fun k : ℕ => (i + (k + 1) - 1, i + (k + 1))) := by
      funext k
      simp only [Prod.mk.injEq]
      omega
    rw [hfun]
    simp [Function.comp_def]

lemma genLoop_bonds_zero (ba ta L : ℝ) (sym : String) (fuel : ℕ) (s : GenState) :
    (genLoop ba ta L sym fuel 0 s).2 =
      (List.range (fuel - 1)).map (fun k => (k, k + 1)) := by
  cases fuel with
  | zero => rfl
  | succ fuel =>
    simp only [genLoop]
    rw [if_neg (by omega : ¬ 0 < 0)]
    rw [genLoop_bonds_pos ba ta L sym fuel 1 (by omega) (advance ba ta L s)]
    simp only [Nat.succ_sub_one, List.nil_append]
    apply List.map_congr_left
    intro k _
    simp only [Prod.mk.injEq]
    omega

lemma create_fst (n : ℤ) (ba ta L : ℝ) (sym : String) :
    (create_polymer_chain n ba ta L sym).1 = n := rfl

lemma create_atoms (n : ℤ) (ba ta L : ℝ) (sym : String) :
    (create_polymer_chain n ba ta L sym).2.1 =
      (List.range n.toNat).map (fun k => atomAt sym ((advance ba ta L)^[k] initState)) := by
  unfold create_polymer_chain
  exact genLoop_atoms ba ta L sym n.toNat 0 initState

lemma create_bonds (n : ℤ) (ba ta L : ℝ) (sym : String) :
    (create_polymer_chain n ba ta L sym).2.2 =
      (List.range (n.toNat - 1)).map (fun k => (k, k + 1)) := by
  unfold create_polymer_chain
  exact genLoop_bonds_zero ba ta L sym n.toNat initState

lemma create_atoms_len (n : ℤ) (ba ta L : ℝ) (sym : String) :
    (create_polymer_chain n ba ta L sym).2.1.length = n.toNat := by
  rw [create_atoms]
  simp

lemma create_good (n : ℤ) (ba ta L : ℝ) (sym : String) (hsym : goodField sym) :
    ∀ a ∈ (create_polymer_chain n ba ta L sym).2.1, goodAtom a := by
  rw [create_atoms]
  intro a ha
  simp only [List.mem_map, List.mem_range] at ha
  obtain ⟨k, -, rfl⟩ := ha
  exact ⟨hsym, fmtMicro_good _, fmtMicro_good _, fmtMicro_good _⟩

/-! ### Concrete evaluations -/

lemma fmt6_zero : fmt6 0 = "0.000000" := by
  have h : round ((0:ℝ) * 1000000) = 0 := by simp
  unfold fmt6
  rw [h]
  rfl

lemma fmt6_of_int (m : ℤ) (v : ℝ) (h : v * 1000000 = (m : ℝ)) : fmt6 v = fmtMicro m := by
  unfold fmt6
  rw [h, round_intCast]

lemma fmt6_three_halves : fmt6 1.5 = "1.500000" := by
  rw [fmt6_of_int 1500000 1.5 (by norm_num)]
  decide

lemma fmt6_three_quarters : fmt6 0.75 = "0.750000" := by
  rw [fmt6_of_int 750000 0.75 (by norm_num)]
  decide

lemma sqrt3_lb : (1.7320508 : ℝ) < Real.sqrt 3 :=
  (Real.lt_sqrt (by norm_num)).mpr (by norm_num)

lemma sqrt3_ub : Real.sqrt 3 < 1.7320509 :=
  (Real.sqrt_lt' (by norm_num)).mpr (by norm_num)

lemma round_sqrt3 : round ((0.75 * Real.sqrt 3) * 1000000) = 1299038 := by
  have h1 := sqrt3_lb
  have h2 := sqrt3_ub
  rw [round_eq]
  apply Int.floor_eq_iff.mpr
  constructor
  · push_cast
    nlinarith
  · push_cast
    nlinarith

lemma fmt6_sqrt3 : fmt6 (0.75 * Real.sqrt 3) = "1.299038" := by
  unfold fmt6
  rw [round_sqrt3]
  decide

lemma cos_radians_zero : Real.cos (radians 0) = 1 := by
  simp [radians]

lemma sin_radians_zero : Real.sin (radians 0) = 0 := by
  simp [radians]

lemma cos_radians_120 : Real.cos (radians 120) = -(1/2) := by
  unfold radians
  rw [show (120:ℝ) * (Real.pi / 180) = Real.pi - Real.pi/3 by ring]
  rw [Real.cos_pi_sub, Real.cos_pi_div_three]

lemma sin_radians_120 : Real.sin (radians 120) = Real.sqrt 3 / 2 := by
  unfold radians
  rw [show (120:ℝ) * (Real.pi / 180) = Real.pi - Real.pi/3 by ring]
  rw [Real.sin_pi_sub, Real.sin_pi_div_three]

lemma advance_example_one : advance 120 0 1.5 initState = ⟨1.5, 0, 0, 120, 0⟩ := by
  simp only [advance, initState]
  norm_num [GenState.mk.injEq, cos_radians_zero, sin_radians_zero]

lemma advance_example_two :
    advance 120 0 1.5 ⟨1.5, 0, 0, 120, 0⟩ = ⟨0.75, 0.75 * Real.sqrt 3, 0, 240, 0⟩ := by
  simp only [advance]
  norm_num [GenState.mk.injEq, cos_radians_zero, sin_radians_zero,
    cos_radians_120, sin_radians_120]
  ring

lemma chain_one (ba ta L : ℝ) (sym : String) :
    create_polymer_chain 1 ba ta L sym =
      (1, [⟨sym, "0.000000", "0.000000", "0.000000"⟩], []) := by
  unfold create_polymer_chain
  simp only [genLoop, atomAt, initState, fmt6_zero]
  rfl

/-! ### Integer rendering after `toNat` -/

lemma toString_toNat {n : ℤ} (h : 0 ≤ n) : toString n = toString n.toNat := by
  cases n with
  | ofNat m => rfl
  | negSucc m => exact absurd h (not_le.mpr (Int.negSucc_lt_zero m))

/-! ### Round trip through the document body -/

lemma filterMap_body :
    ∀ (atoms : List Atom), (∀ a ∈ atoms, goodAtom a) →
      (atoms.map (fun a => (atomLine a).data) ++ [[]]).filterMap (fun l =>
          match (splitWS l).map String.mk with
          | [a, b, c, d] => some (a, b, c, d)
          | _ => none) =
        atoms.map (fun a => (a.symbol, a.sx, a.sy, a.sz)) := by
  intro atoms
  induction atoms with
  | nil =>
    intro _
    simp [splitWS, splitWSAux]
  | cons a atoms ih =>
    intro h
    simp only [List.map_cons, List.cons_append, List.filterMap_cons]
    rw [splitWS_atomLine (h a (List.mem_cons_self _ _))]
    simp only [List.map_cons, List.map_nil, mk_data]
    rw [ih (fun b hb => h b (List.mem_cons_of_mem _ hb))]

/-! ### The claims -/

/-- C1: for every valid input (positive `n_units`, any real angles, any bond
length, any element symbol), `create_polymer_chain` returns `num_atoms` equal
to `n_units`, a coordinate list of exactly `n_units` atom records, and a bond
list of exactly `n_units - 1` pairs which are precisely `(i-1, i)` for
`i = 1 .. n_units-1` in increasing index order. -/
theorem claim_C1 (n : ℤ) (ba ta L : ℝ) (sym : String) (hn : 0 < n) :
    (create_polymer_chain n ba ta L sym).1 = n ∧
    ((create_polymer_chain n ba ta L sym).2.1.length : ℤ) = n ∧
    (create_polymer_chain n ba ta L sym).2.2 =
      (List.range (n.toNat - 1)).map (fun i => (i, i + 1)) ∧
    ((create_polymer_chain n ba ta L sym).2.2.length : ℤ) = n - 1 := by
  refine ⟨rfl, ?_, create_bonds n ba ta L sym, ?_⟩
  · rw [create_atoms_len]
    omega
  · rw [create_bonds]
    simp only [List.length_map, List.length_range]
    omega

/-- Witness for C1 at `n_units = 3`. -/
theorem claim_C1_witness :
    (0:ℤ) < 3 ∧
      ((create_polymer_chain 3 0 0 1 "C").1 = 3 ∧
      ((create_polymer_chain 3 0 0 1 "C").2.1.length : ℤ) = 3 ∧
      (create_polymer_chain 3 0 0 1 "C").2.2 =
        (List.range ((3:ℤ).toNat - 1)).map (fun i => (i, i + 1)) ∧
      ((create_polymer_chain 3 0 0 1 "C").2.2.length : ℤ) = 3 - 1) :=
  ⟨by decide, claim_C1 3 0 0 1 "C" (by decide)⟩

/-- C2: `create_polymer_chain` follows the stated recurrence — atom `i` is
emitted at the running position reached after `i` advances, each advance adds
`(L·cos·cos, L·sin·cos, L·sin)` of the current angles and only afterwards
increments the angles — and on the worked example `n_units = 3`,
`bond_angle = 120`, `torsion_angle = 0`, `bond_length = 1.5`, symbol `"C"`,
atom 0 sits at the origin, atom 1 at `(1.5, 0, 0)` and atom 2 at
`(0.75, 0.75·√3, 0)`, rendered to six decimals as `1.299038`. -/
theorem claim_C2 :
    (∀ (n : ℤ) (ba ta L : ℝ) (sym : String),
        (create_polymer_chain n ba ta L sym).2.1 =
          (List.range n.toNat).map
            (fun i => atomAt sym ((advance ba ta L)^[i] initState))) ∧
    (create_polymer_chain 3 120 0 1.5 "C").2.1 =
      [⟨"C", "0.000000", "0.000000", "0.000000"⟩,
        ⟨"C", "1.500000", "0.000000", "0.000000"⟩,
        ⟨"C", "0.750000", "1.299038", "0.000000"⟩] := by
  refine ⟨create_atoms, ?_⟩
  rw [create_atoms]
  have h3 : (3:ℤ).toNat = 3 := rfl
  have hr : List.range 3 = [0, 1, 2] := rfl
  rw [h3, hr]
  simp only [List.map_cons, List.map_nil]
  simp only [Function.iterate_succ_apply, Function.iterate_zero_apply]
  rw [advance_example_one, advance_example_two]
  simp only [atomAt, initState]
  simp only [fmt6_zero, fmt6_three_halves, fmt6_three_quarters, fmt6_sqrt3]

/-- C3: the writer produces a document whose first line is the atom count in
decimal, whose second line is the fixed comment, and whose later lines are the
four fields of each atom record joined by single spaces, each line terminated
by a newline with no extra blank line (the final `[]` remnant witnesses the
terminating newline). -/
theorem claim_C3 (n : ℤ) (atoms : List Atom)
    (h : ∀ a ∈ atoms, '\n' ∉ a.symbol.data ∧ '\n' ∉ a.sx.data ∧
      '\n' ∉ a.sy.data ∧ '\n' ∉ a.sz.data) :
    splitNL (write_xyz_string n atoms).data =
      (toString n).data :: "Generated polymer chain".data ::
        (atoms.map (fun a => (a.symbol ++ " " ++ a.sx ++ " " ++ a.sy ++ " " ++ a.sz).data)
          ++ [[]]) := by
  rw [splitNL_write n atoms (fun a ha => atomLine_no_nl (h a ha))]
  rfl

/-- Witness for C3 on a one-atom document. -/
theorem claim_C3_witness :
    (∀ a ∈ [Atom.mk "C" "1.000000" "2.000000" "3.000000"],
        '\n' ∉ a.symbol.data ∧ '\n' ∉ a.sx.data ∧ '\n' ∉ a.sy.data ∧ '\n' ∉ a.sz.data) ∧
    splitNL (write_xyz_string 1 [Atom.mk "C" "1.000000" "2.000000" "3.000000"]).data =
      (toString (1:ℤ)).data :: "Generated polymer chain".data ::
        ([Atom.mk "C" "1.000000" "2.000000" "3.000000"].map
          (fun a => (a.symbol ++ " " ++ a.sx ++ " " ++ a.sy ++ " " ++ a.sz).data) ++ [[]]) :=
  ⟨by decide, claim_C3 1 [Atom.mk "C" "1.000000" "2.000000" "3.000000"] (by decide)⟩

/-- C4: round trip — writing a well-formed chain with `write_xyz_string` and
parsing the result back with the XYZ reader yields the same atom count and
exactly the same coordinate fields (the reader is modelled from the spec, as
the repeater script is not under `src/`). -/
theorem claim_C4 (atoms : List Atom) (h : ∀ a ∈ atoms, goodAtom a) :
    read_xyz (write_xyz_string (atoms.length : ℤ) atoms) =
      atoms.map (fun a => (a.symbol, a.sx, a.sy, a.sz)) ∧
    (read_xyz (write_xyz_string (atoms.length : ℤ) atoms)).length = atoms.length := by
  have hmain : read_xyz (write_xyz_string (atoms.length : ℤ) atoms) =
      atoms.map (fun a => (a.symbol, a.sx, a.sy, a.sz)) := by
    unfold read_xyz
    rw [splitNL_write _ atoms (fun a ha => goodAtom_no_nl (h a ha))]
    simp only [List.drop_succ_cons, List.drop_zero]
    exact filterMap_body atoms h
  exact ⟨hmain, by rw [hmain]; simp⟩

/-- Witness for C4 on a one-atom chain. -/
theorem claim_C4_witness :
    (∀ a ∈ [Atom.mk "C" "0.500000" "0.000000" "0.000000"], goodAtom a) ∧
    (read_xyz (write_xyz_string ([Atom.mk "C" "0.500000" "0.000000" "0.000000"].length : ℤ)
          [Atom.mk "C" "0.500000" "0.000000" "0.000000"]) =
        [Atom.mk "C" "0.500000" "0.000000" "0.000000"].map
          (fun a => (a.symbol, a.sx, a.sy, a.sz)) ∧
      (read_xyz (write_xyz_string ([Atom.mk "C" "0.500000" "0.000000" "0.000000"].length : ℤ)
          [Atom.mk "C" "0.500000" "0.000000" "0.000000"])).length =
        [Atom.mk "C" "0.500000" "0.000000" "0.000000"].length) :=
  ⟨by decide, claim_C4 [Atom.mk "C" "0.500000" "0.000000" "0.000000"] (by decide)⟩

/-- C5: for `n_units = 1` and any other parameters, `create_polymer_chain`
produces exactly one atom, at the origin (all three coordinates rendered as
`0.000000`), and an empty bond list. -/
theorem claim_C5 (ba ta L : ℝ) (sym : String) :
    create_polymer_chain 1 ba ta L sym =
      (1, [⟨sym, "0.000000", "0.000000", "0.000000"⟩], []) :=
  chain_one ba ta L sym

/-- C6: composing `create_polymer_chain` with `write_xyz_string` (for a
positive unit count and a whitespace-free nonempty symbol) yields a document
whose first line is exactly the decimal count of the atom lines that follow
the comment line, and each atom line has exactly 4 whitespace-separated
fields. -/
theorem claim_C6 (n : ℤ) (ba ta L : ℝ) (sym : String) (hn : 0 < n)
    (hsym : goodField sym) :
    (splitNL (write_xyz_string (create_polymer_chain n ba ta L sym).1
        (create_polymer_chain n ba ta L sym).2.1).data).head? =
      some (toString ((((splitNL (write_xyz_string (create_polymer_chain n ba ta L sym).1
        (create_polymer_chain n ba ta L sym).2.1).data).drop 2).dropLast).length)).data ∧
    ∀ l ∈ ((splitNL (write_xyz_string (create_polymer_chain n ba ta L sym).1
        (create_polymer_chain n ba ta L sym).2.1).data).drop 2).dropLast,
      (splitWS l).length = 4 := by
  have hgood := create_good n ba ta L sym hsym
  have hlines := splitNL_write (create_polymer_chain n ba ta L sym).1
    (create_polymer_chain n ba ta L sym).2.1
    (fun a ha => goodAtom_no_nl (hgood a ha))
  rw [hlines]
  constructor
  · simp only [List.head?_cons, List.drop_succ_cons, List.drop_zero]
    rw [List.dropLast_concat]
    simp only [List.length_map, create_atoms_len]
    rw [create_fst, toString_toNat (le_of_lt hn)]
  · intro l hl
    simp only [List.drop_succ_cons, List.drop_zero] at hl
    rw [List.dropLast_concat] at hl
    simp only [List.mem_map] at hl
    obtain ⟨a, ha, rfl⟩ := hl
    rw [splitWS_atomLine (hgood a ha)]
    rfl

/-- Witness for C6 at `n_units = 1` with symbol `"C"`. -/
theorem claim_C6_witness :
    (0:ℤ) < 1 ∧ goodField "C" ∧
    ((splitNL (write_xyz_string (create_polymer_chain 1 0 0 1 "C").1
        (create_polymer_chain 1 0 0 1 "C").2.1).data).head? =
      some (toString ((((splitNL (write_xyz_string (create_polymer_chain 1 0 0 1 "C").1
        (create_polymer_chain 1 0 0 1 "C").2.1).data).drop 2).dropLast).length)).data ∧
    ∀ l ∈ ((splitNL (write_xyz_string (create_polymer_chain 1 0 0 1 "C").1
        (create_polymer_chain 1 0 0 1 "C").2.1).data).drop 2).dropLast,
      (splitWS l).length = 4) :=
  ⟨by decide, by decide, claim_C6 1 0 0 1 "C" (by decide) (by decide)⟩

/-- C7: every atom emitted by `create_polymer_chain` carries the given
`monomer_type` as its element symbol, and each of its three coordinate fields
is a string ending in a dot followed by exactly six decimal digits. -/
theorem claim_C7 (n : ℤ) (ba ta L : ℝ) (sym : String) (a : Atom)
    (ha : a ∈ (create_polymer_chain n ba ta L sym).2.1) :
    a.symbol = sym ∧ sixDecimals a.sx ∧ sixDecimals a.sy ∧ sixDecimals a.sz := by
  rw [create_atoms] at ha
  simp only [List.mem_map, List.mem_range] at ha
  obtain ⟨k, -, rfl⟩ := ha
  exact ⟨rfl, fmtMicro_sixDecimals _, fmtMicro_sixDecimals _, fmtMicro_sixDecimals _⟩

/-- Witness for C7 on the single atom of a one-unit chain. -/
theorem claim_C7_witness :
    Atom.mk "C" "0.000000" "0.000000" "0.000000" ∈
        (create_polymer_chain 1 0 0 1 "C").2.1 ∧
      ((Atom.mk "C" "0.000000" "0.000000" "0.000000").symbol = "C" ∧
        sixDecimals (Atom.mk "C" "0.000000" "0.000000" "0.000000").sx ∧
        sixDecimals (Atom.mk "C" "0.000000" "0.000000" "0.000000").sy ∧
        sixDecimals (Atom.mk "C" "0.000000" "0.000000" "0.000000").sz) := by
  have hmem : Atom.mk "C" "0.000000" "0.000000" "0.000000" ∈
      (create_polymer_chain 1 0 0 1 "C").2.1 := by
    rw [chain_one]
    exact List.mem_singleton_self _
  exact ⟨hmem, claim_C7 1 0 0 1 "C" _ hmem⟩

/-- C8: `create_polymer_chain` validates nothing — every non-positive
`n_units` raises no error and returns the degenerate output of `num_atoms`
equal to the given `n_units` together with empty coordinate and bond lists. -/
theorem claim_C8 (n : ℤ) (ba ta L : ℝ) (sym : String) (hn : n ≤ 0) :
    create_polymer_chain n ba ta L sym = (n, [], []) := by
  unfold create_polymer_chain
  have h0 : n.toNat = 0 := by omega
  rw [h0]
  rfl

/-- Witness for C8 at `n_units = -1`. -/
theorem claim_C8_witness :
    (-1:ℤ) ≤ 0 ∧ create_polymer_chain (-1) 0 0 1 "C" = (-1, [], []) :=
  ⟨by decide, claim_C8 (-1) 0 0 1 "C" (by decide)⟩

/-- C9: `create_polymer_chain` is deterministic — two runs with equal inputs
return equal `num_atoms`, coordinate lists and bond lists. -/
theorem claim_C9 (n1 n2 : ℤ) (ba1 ba2 ta1 ta2 L1 L2 : ℝ) (s1 s2 : String)
    (h : n1 = n2 ∧ ba1 = ba2 ∧ ta1 = ta2 ∧ L1 = L2 ∧ s1 = s2) :
    create_polymer_chain n1 ba1 ta1 L1 s1 = create_polymer_chain n2 ba2 ta2 L2 s2 := by
  obtain ⟨rfl, rfl, rfl, rfl, rfl⟩ := h
  rfl

/-- Witness for C9 on equal concrete inputs. -/
theorem claim_C9_witness :
    ((1:ℤ) = 1 ∧ (120:ℝ) = 120 ∧ (0:ℝ) = 0 ∧ (1.5:ℝ) = 1.5 ∧ "C" = "C") ∧
      create_polymer_chain 1 120 0 1.5 "C" = create_polymer_chain 1 120 0 1.5 "C" :=
  ⟨⟨rfl, rfl, rfl, rfl, rfl⟩,
    claim_C9 1 1 120 120 0 0 1.5 1.5 "C" "C" ⟨rfl, rfl, rfl, rfl, rfl⟩⟩

/-- C10: `write_xyz_string` never checks `num_atoms` against the coordinate
list — for every count and list, also disagreeing ones, it writes the given
count verbatim on line 1 and exactly one line per atom record, so a mismatched
count silently violates the count-equals-length invariant. -/
theorem claim_C10 (n : ℤ) (atoms : List Atom)
    (h : ∀ a ∈ atoms, '\n' ∉ a.symbol.data ∧ '\n' ∉ a.sx.data ∧
      '\n' ∉ a.sy.data ∧ '\n' ∉ a.sz.data) :
    (splitNL (write_xyz_string n atoms).data).head? = some (toString n).data ∧
    ((splitNL (write_xyz_string n atoms).data).drop 2).dropLast.length = atoms.length := by
  rw [splitNL_write n atoms (fun a ha => atomLine_no_nl (h a ha))]
  refine ⟨rfl, ?_⟩
  simp only [List.drop_succ_cons, List.drop_zero]
  rw [List.dropLast_concat]
  simp

/-- Witness for C10 with count 5 against a single atom record. -/
theorem claim_C10_witness :
    (∀ a ∈ [Atom.mk "C" "0.000000" "0.000000" "0.000000"],
        '\n' ∉ a.symbol.data ∧ '\n' ∉ a.sx.data ∧ '\n' ∉ a.sy.data ∧ '\n' ∉ a.sz.data) ∧
    ((splitNL (write_xyz_string 5 [Atom.mk "C" "0.000000" "0.000000" "0.000000"]).data).head? =
        some (toString (5:ℤ)).data ∧
      ((splitNL (write_xyz_string 5
          [Atom.mk "C" "0.000000" "0.000000" "0.000000"]).data).drop 2).dropLast.length =
        [Atom.mk "C" "0.000000" "0.000000" "0.000000"].length) :=
  ⟨by decide, claim_C10 5 [Atom.mk "C" "0.000000" "0.000000" "0.000000"] (by decide)⟩

end Polymer
